import Mathlib

/-!
Verification of the Command-pattern undo subsystem: an `Editor` holding
document text and a half-open selection range, an abstract `Command` with a
text backup, concrete commands (Copy, Cut, Paste, Undo), a `CommandHistory`
stack and an `Application` coordinator.  Document text is modelled as
`List Char`; JavaScript `String.slice` on in-range (or clamped) indices is
`listSlice`.  Mutation is modelled by explicit state passing.
-/

/-- JS-style two-argument slice on lists: the elements in positions
`[s, e)`, with out-of-range indices clamped (as `String.slice` does). -/
def listSlice (l : List Char) (s e : Nat) : List Char :=
  (l.take e).drop s

/-- The receiver: document text plus a half-open selection range. -/
structure Editor where
  text : List Char
  selectionStart : Nat
  selectionEnd : Nat
deriving DecidableEq, Repr

/-- The `Editor` constructor: fresh editor with the given text and a
collapsed selection at position 0. -/
def newEditor (t : List Char) : Editor :=
  { text := t, selectionStart := 0, selectionEnd := 0 }

/-- `Editor.setSelection(start, end)`: clamps `start` to `[0, len]` by
`max(0, min(start, len))`, then clamps `end` to `[start, len]` by
`max(start, min(end, len))`.  Arguments are arbitrary integers. -/
def Editor.setSelection (ed : Editor) (start stop : Int) : Editor :=
  let len : Int := ed.text.length
  let s : Nat := (max 0 (min start len)).toNat
  let e : Nat := (max (s : Int) (min stop len)).toNat
  { ed with selectionStart := s, selectionEnd := e }

/-- `Editor.getSelection()`: `text.slice(selectionStart, selectionEnd)`. -/
def Editor.getSelection (ed : Editor) : List Char :=
  listSlice ed.text ed.selectionStart ed.selectionEnd

/-- `Editor.deleteSelection()`: `text := slice(0, selectionStart) ++
slice(selectionEnd)`, then the selection collapses onto its start. -/
def Editor.deleteSelection (ed : Editor) : Editor :=
  { ed with
      text := ed.text.take ed.selectionStart ++ ed.text.drop ed.selectionEnd
      selectionEnd := ed.selectionStart }

/-- `Editor.replaceSelection(t)`: splices `t` in place of the selected
range; `selectionEnd` becomes `selectionStart + t.length`. -/
def Editor.replaceSelection (ed : Editor) (t : List Char) : Editor :=
  { ed with
      text := ed.text.take ed.selectionStart ++ t ++ ed.text.drop ed.selectionEnd
      selectionEnd := ed.selectionStart + t.length }

/-- The four concrete command classes. -/
inductive CmdKind
  | copy
  | cut
  | paste
  | undo
deriving DecidableEq, Repr

/-- A command instance: its class together with its mutable `backup`
field (the pre-mutation snapshot of the editor text). -/
structure Command where
  kind : CmdKind
  backup : List Char
deriving DecidableEq, Repr

/-- A freshly constructed command: `backup` starts as the empty string. -/
def newCommand (k : CmdKind) : Command :=
  { kind := k, backup := [] }

/-- The history stack of executed state-changing commands.  The head of
the list is the top of the stack. -/
structure CommandHistory where
  history : List Command
deriving DecidableEq, Repr

/-- `CommandHistory.push`: the command becomes the new top of stack. -/
def CommandHistory.push (h : CommandHistory) (c : Command) : CommandHistory :=
  { history := c :: h.history }

/-- `CommandHistory.pop`: removes and returns the most recent command, or
returns `none` (and leaves the stack alone) when the stack is empty. -/
def CommandHistory.pop (h : CommandHistory) : Option Command × CommandHistory :=
  match h.history with
  | [] => (none, h)
  | c :: rest => (some c, { history := rest })

/-- The coordinator: clipboard, (unused) editor registry, active editor
and the command history. -/
structure App where
  clipboard : List Char
  editors : List Editor
  activeEditor : Editor
  history : CommandHistory
deriving DecidableEq, Repr

/-- The `Application` constructor with an explicit active editor: empty
clipboard, empty registry, empty history. -/
def newApplication (ed : Editor) : App :=
  { clipboard := [], editors := [], activeEditor := ed
    history := { history := [] } }

/-- `Command.saveBackup()`: records the editor text in the command. -/
def Command.saveBackup (c : Command) (ed : Editor) : Command :=
  { c with backup := ed.text }

/-- `Command.undo()`: restores the active editor's text from the saved
backup.  The only assignment in the source body is
`this.editor.text = this.backup`, so every other component of the state is
passed through unchanged. -/
def Command.undoOn (c : Command) (app : App) : App :=
  { app with activeEditor := { app.activeEditor with text := c.backup } }

/-- `Application.undo()`: pops the history; if a command came back, runs
its `undo()`; on an empty history this is a silent no-op. -/
def App.undo (app : App) : App :=
  match CommandHistory.pop app.history with
  | (none, h) => { app with history := h }
  | (some c, h) => { c.undoOn app with history := h }

/-- `Command.execute()` for each concrete class.  Returns the updated
command instance (Cut and Paste mutate their `backup` field via
`saveBackup`), the changed-state flag that the source returns, and the
updated application state. -/
def Command.execute (c : Command) (app : App) : Command × Bool × App :=
  match c.kind with
  | .copy =>
      (c, false, { app with clipboard := app.activeEditor.getSelection })
  | .cut =>
      let c2 := c.saveBackup app.activeEditor
      let app2 := { app with clipboard := app.activeEditor.getSelection }
      (c2, true, { app2 with activeEditor := app2.activeEditor.deleteSelection })
  | .paste =>
      let c2 := c.saveBackup app.activeEditor
      (c2, true,
        { app with activeEditor := app.activeEditor.replaceSelection app.clipboard })
  | .undo =>
      (c, false, app.undo)

/-- `Application.executeCommand(c)`: runs `c.execute()` and pushes the
command onto the history exactly when the returned flag is `true`. -/
def App.executeCommand (app : App) (c : Command) : App :=
  let r := c.execute app
  if r.2.1 then { r.2.2 with history := r.2.2.history.push r.1 } else r.2.2

/-- The state-changing command classes (the ones whose `execute()` returns
`true`): Cut and Paste. -/
inductive MutKind
  | cut
  | paste
deriving DecidableEq, Repr

/-- Embeds a state-changing command class into the full class set. -/
def MutKind.toKind : MutKind → CmdKind
  | .cut => .cut
  | .paste => .paste

/-- Executes a sequence of freshly constructed Cut/Paste commands through
`Application.executeCommand`. -/
def runMut (app : App) (ks : List MutKind) : App :=
  ks.foldl (fun a k => a.executeCommand (newCommand k.toKind)) app

/-- One `executeCommand` call on a fresh command of class `k`, also
reporting the flag that its `execute()` returned. -/
def execStep (app : App) (k : CmdKind) : Bool × App :=
  (((newCommand k).execute app).2.1, app.executeCommand (newCommand k))

/-- Fold step threading the application state and the running count of
calls whose `execute()` returned `true`. -/
def runExecStep (p : App × Nat) (k : CmdKind) : App × Nat :=
  let s := execStep p.1 k
  (s.2, p.2 + (if s.1 then 1 else 0))

/-- Executes a sequence of fresh commands via `executeCommand`, returning
the final state and how many of the calls returned `true`. -/
def runExec (app : App) (ks : List CmdKind) : App × Nat :=
  ks.foldl runExecStep (app, 0)

/-- A public operation on the application: either `executeCommand` on a
fresh command of some class, or a direct `Application.undo()` call. -/
inductive AppOp
  | execOp (k : CmdKind)
  | undoOp
deriving DecidableEq, Repr

/-- Applies one public operation. -/
def applyOp (app : App) (op : AppOp) : App :=
  match op with
  | .execOp k => app.executeCommand (newCommand k)
  | .undoOp => app.undo

/-- Applies a sequence of public operations in order. -/
def runOps (app : App) (ops : List AppOp) : App :=
  ops.foldl applyOp app

/-- A command whose `execute()` returns `true`: Cut or Paste. -/
def stateChanging (c : Command) : Bool :=
  c.kind == CmdKind.cut || c.kind == CmdKind.paste

/-- Demo: the editor starts with `"Hello World"` and selection `[6, 11)`
(the substring `"World"`). -/
def demoEditor0 : Editor :=
  (newEditor "Hello World".data).setSelection 6 11

/-- Demo: the application wrapping `demoEditor0`. -/
def demoApp0 : App :=
  newApplication demoEditor0

/-- Demo state after executing a Copy command. -/
def demoApp1 : App :=
  demoApp0.executeCommand (newCommand .copy)

/-- Demo state after then executing a Cut command. -/
def demoApp2 : App :=
  demoApp1.executeCommand (newCommand .cut)

/-- Demo state after then setting the selection to `[5, 5)`. -/
def demoApp3 : App :=
  { demoApp2 with activeEditor := demoApp2.activeEditor.setSelection 5 5 }

/-- Demo state after then executing a Paste command. -/
def demoApp4 : App :=
  demoApp3.executeCommand (newCommand .paste)

/-- Demo state after then executing an Undo command. -/
def demoApp5 : App :=
  demoApp4.executeCommand (newCommand .undo)

/-- After the demo's Paste, widen the selection to span the whole
lengthened text, then undo: the text shrinks but the selection stays. -/
def overUndoApp : App :=
  ({ demoApp4 with
      activeEditor := demoApp4.activeEditor.setSelection 0 11 }).undo

/-- C2 counterexample: in the demo, after setting the selection to
`[5,5)` in `"Hello "` and executing Paste, the text is NOT
`"Hello World"`: the clipboard is spliced in at index 5, before the
trailing space. -/
theorem demo_paste_text_counterexample :
    demoApp4.activeEditor.text ≠ "Hello World".data := by
  decide

/-- C2 (amended): in the demo, after Copy the clipboard is `"World"`;
after Cut the clipboard is `"World"` and the text is `"Hello "`; after
selecting `[5,5)` and executing Paste the text is `"HelloWorld "` (the
paste lands before the trailing space); after Undo the text reverts to
`"Hello "` (the pre-Paste backup). -/
theorem demo_scenario :
    demoApp1.clipboard = "World".data ∧
    demoApp2.clipboard = "World".data ∧
    demoApp2.activeEditor.text = "Hello ".data ∧
    demoApp4.activeEditor.text = "HelloWorld ".data ∧
    demoApp5.activeEditor.text = "Hello ".data := by
  decide

/-- C1: after executing any sequence of Cut/Paste commands through
`Application.executeCommand`, one `Application.undo()` call restores the
editor text to exactly its value immediately before the last command. -/
theorem undo_restores_previous_text (app : App) (ks : List MutKind) (k : MutKind) :
    (((runMut app ks).executeCommand (newCommand k.toKind)).undo).activeEditor.text
      = (runMut app ks).activeEditor.text := by
  cases k <;> rfl

/-- C4: for arbitrary integer arguments, `setSelection` always succeeds
and establishes `0 <= selectionStart <= selectionEnd <= text.length`. -/
theorem setSelection_invariant (ed : Editor) (s t : Int) :
    0 ≤ (ed.setSelection s t).selectionStart ∧
    (ed.setSelection s t).selectionStart ≤ (ed.setSelection s t).selectionEnd ∧
    (ed.setSelection s t).selectionEnd ≤ (ed.setSelection s t).text.length := by
  refine ⟨Nat.zero_le _, ?_, ?_⟩
  · show (max 0 (min s (ed.text.length : Int))).toNat ≤
      (max (((max 0 (min s (ed.text.length : Int))).toNat : Int))
        (min t (ed.text.length : Int))).toNat
    omega
  · show (max (((max 0 (min s (ed.text.length : Int))).toNat : Int))
      (min t (ed.text.length : Int))).toNat ≤ ed.text.length
    omega

/-- C7: popping an empty history returns `none` rather than failing, and
`Application.undo()` on an empty history leaves the whole application
state (in particular `editor.text`) unchanged. -/
theorem pop_empty_and_undo_noop (app : App) (h : app.history.history = []) :
    (CommandHistory.pop app.history).1 = none ∧ app.undo = app := by
  obtain ⟨cb, eds, ed, hist⟩ := app
  obtain ⟨hl⟩ := hist
  simp only at h
  subst h
  exact ⟨rfl, rfl⟩

/-- C7 witness: the freshly constructed application has empty history,
pop on it returns `none`, and undo on it is the identity. -/
theorem pop_empty_and_undo_noop_witness :
    (newApplication (newEditor [])).history.history = [] ∧
    ((CommandHistory.pop (newApplication (newEditor [])).history).1 = none ∧
      (newApplication (newEditor [])).undo = newApplication (newEditor [])) :=
  ⟨rfl, pop_empty_and_undo_noop (newApplication (newEditor [])) rfl⟩

/-- C8: `Command.undo()` sets the editor text to the saved backup and
changes nothing else: selection bounds, clipboard, editor registry and
history are all untouched. -/
theorem command_undo_frame (c : Command) (app : App) :
    (c.undoOn app).activeEditor.text = c.backup ∧
    (c.undoOn app).activeEditor.selectionStart = app.activeEditor.selectionStart ∧
    (c.undoOn app).activeEditor.selectionEnd = app.activeEditor.selectionEnd ∧
    (c.undoOn app).clipboard = app.clipboard ∧
    (c.undoOn app).editors = app.editors ∧
    (c.undoOn app).history = app.history :=
  ⟨rfl, rfl, rfl, rfl, rfl, rfl⟩

/-- C9: a sequence of public operations that breaks the selection bounds
invariant: after the demo's Paste the text has length 11; selecting
`[0,11)` and then undoing shrinks the text to `"Hello "` (length 6) while
leaving `selectionEnd = 11`; `getSelection` still returns a value (the
whole remaining text) in that state. -/
theorem selection_invariant_violation :
    overUndoApp.activeEditor.text.length < overUndoApp.activeEditor.selectionEnd ∧
    overUndoApp.activeEditor.getSelection = "Hello ".data := by
  decide

/-- C10: with an empty selection, Cut's `execute()` still returns `true`,
the command is pushed onto the history, the text is unchanged, the
clipboard becomes empty, and undoing the new entry leaves the text as it
was. -/
theorem cut_empty_selection (app : App)
    (h : app.activeEditor.selectionStart = app.activeEditor.selectionEnd) :
    ((newCommand CmdKind.cut).execute app).2.1 = true ∧
    (app.executeCommand (newCommand CmdKind.cut)).activeEditor.text
      = app.activeEditor.text ∧
    (app.executeCommand (newCommand CmdKind.cut)).clipboard = [] ∧
    (app.executeCommand (newCommand CmdKind.cut)).history.history.length
      = app.history.history.length + 1 ∧
    ((app.executeCommand (newCommand CmdKind.cut)).undo).activeEditor.text
      = app.activeEditor.text := by
  refine ⟨rfl, ?_, ?_, rfl, rfl⟩
  · show app.activeEditor.text.take app.activeEditor.selectionStart ++
      app.activeEditor.text.drop app.activeEditor.selectionEnd = app.activeEditor.text
    rw [h]
    exact List.take_append_drop _ _
  · show (app.activeEditor.text.take app.activeEditor.selectionEnd).drop
      app.activeEditor.selectionStart = []
    rw [h]
    exact List.drop_eq_nil_of_le (List.length_take_le _ _)

/-- C10 witness: the empty-selection Cut behaviour at a concrete
application whose editor holds `"ab"` with selection `[0,0)`. -/
theorem cut_empty_selection_witness :
    (newApplication (newEditor "ab".data)).activeEditor.selectionStart
      = (newApplication (newEditor "ab".data)).activeEditor.selectionEnd ∧
    (((newCommand CmdKind.cut).execute (newApplication (newEditor "ab".data))).2.1 = true ∧
      ((newApplication (newEditor "ab".data)).executeCommand
          (newCommand CmdKind.cut)).activeEditor.text
        = (newApplication (newEditor "ab".data)).activeEditor.text ∧
      ((newApplication (newEditor "ab".data)).executeCommand
          (newCommand CmdKind.cut)).clipboard = [] ∧
      ((newApplication (newEditor "ab".data)).executeCommand
          (newCommand CmdKind.cut)).history.history.length
        = (newApplication (newEditor "ab".data)).history.history.length + 1 ∧
      (((newApplication (newEditor "ab".data)).executeCommand
          (newCommand CmdKind.cut)).undo).activeEditor.text
        = (newApplication (newEditor "ab".data)).activeEditor.text) :=
  ⟨rfl, cut_empty_selection (newApplication (newEditor "ab".data)) rfl⟩

/-- History length change of a single `executeCommand` call on a fresh
command whose class is not Undo: it grows by one exactly when the
returned flag is `true`. -/
theorem execStep_hist (app : App) (k : CmdKind) (hk : k ≠ CmdKind.undo) :
    ((execStep app k).2).history.history.length
      = app.history.history.length + (if (execStep app k).1 then 1 else 0) := by
  cases k with
  | copy => rfl
  | cut => rfl
  | paste => rfl
  | undo => exact absurd rfl hk

/-- Accumulator form of the history-length count over a run that contains
no Undo command. -/
theorem runExec_aux (ks : List CmdKind) :
    CmdKind.undo ∉ ks → ∀ (app : App) (n : Nat),
    (ks.foldl runExecStep (app, n)).1.history.history.length + n
      = app.history.history.length + (ks.foldl runExecStep (app, n)).2 := by
  induction ks with
  | nil => intro _ app n; rfl
  | cons k t ih =>
    intro hks app n
    have hk : k ≠ CmdKind.undo := fun e => hks (e ▸ List.mem_cons_self k t)
    have hks2 : CmdKind.undo ∉ t := fun m => hks (List.mem_cons_of_mem k m)
    have hstep := execStep_hist app k hk
    have ihh := ih hks2 (execStep app k).2
      (n + (if (execStep app k).1 then 1 else 0))
    have hunfold : runExecStep (app, n) k
        = ((execStep app k).2, n + (if (execStep app k).1 then 1 else 0)) := rfl
    simp only [List.foldl_cons, hunfold]
    simp only [List.foldl_cons, hunfold] at ihh
    omega

/-- C3 counterexample: executing Cut then Undo on a fresh application over
the text `"ab"` (all of it selected) leaves the history empty although
exactly one of the two `execute()` calls returned `true`: the successful
Undo pops an entry, so the stated equality fails. -/
theorem history_length_counterexample :
    ¬ ((runExec (newApplication ((newEditor "ab".data).setSelection 0 2))
          [CmdKind.cut, CmdKind.undo]).1.history.history.length
        = (runExec (newApplication ((newEditor "ab".data).setSelection 0 2))
          [CmdKind.cut, CmdKind.undo]).2) := by
  decide

/-- C3 (amended): after any sequence of `executeCommand` calls over the
command classes Copy, Cut and Paste (no Undo command in the sequence), the
number of entries in the history equals the number it started with plus
the number of calls whose `execute()` returned `true`. -/
theorem history_length_counts_true (app : App) (ks : List CmdKind)
    (h : CmdKind.undo ∉ ks) :
    (runExec app ks).1.history.history.length
      = app.history.history.length + (runExec app ks).2 := by
  have haux := runExec_aux ks h app 0
  simpa using haux

/-- C3 witness: a fresh application running Copy, Cut, Paste ends with as
many history entries as `execute()` calls that returned `true`. -/
theorem history_length_counts_true_witness :
    CmdKind.undo ∉ [CmdKind.copy, CmdKind.cut, CmdKind.paste] ∧
    (runExec (newApplication ((newEditor "ab".data).setSelection 0 1))
        [CmdKind.copy, CmdKind.cut, CmdKind.paste]).1.history.history.length
      = (newApplication ((newEditor "ab".data).setSelection 0 1)).history.history.length
        + (runExec (newApplication ((newEditor "ab".data).setSelection 0 1))
            [CmdKind.copy, CmdKind.cut, CmdKind.paste]).2 :=
  ⟨by decide,
    history_length_counts_true (newApplication ((newEditor "ab".data).setSelection 0 1))
      [CmdKind.copy, CmdKind.cut, CmdKind.paste] (by decide)⟩

/-- C5: for any text `T` with a valid selection `[s, e)`, deleting the
selection and then replacing the resulting collapsed selection `[s, s)`
with the deleted slice `T.slice(s, e)` restores the text exactly. -/
theorem delete_replace_roundtrip (T : List Char) (s e : Nat)
    (hse : s ≤ e) (heT : e ≤ T.length) :
    (((Editor.mk T s e).deleteSelection).replaceSelection (listSlice T s e)).text
      = T := by
  have hsT : s ≤ T.length := le_trans hse heT
  have hlen : (T.take s).length = s := by
    rw [List.length_take]; omega
  have h1 : (T.take s ++ T.drop e).take s = T.take s := by
    rw [List.take_append_eq_append_take, hlen, Nat.sub_self, List.take_zero,
      List.append_nil, List.take_take, Nat.min_self]
  have h2 : (T.take s ++ T.drop e).drop s = T.drop e := by
    rw [List.drop_append_eq_append_drop, hlen, Nat.sub_self, List.drop_zero]
    have hnil : (T.take s).drop s = [] := List.drop_eq_nil_of_le (le_of_eq hlen)
    rw [hnil, List.nil_append]
  have h3 : T.take s ++ (T.take e).drop s = T.take e := by
    have htk : (T.take e).take s = T.take s := by
      rw [List.take_take, Nat.min_eq_left hse]
    calc T.take s ++ (T.take e).drop s
        = (T.take e).take s ++ (T.take e).drop s := by rw [htk]
      _ = T.take e := List.take_append_drop _ _
  show ((T.take s ++ T.drop e).take s ++ (T.take e).drop s)
      ++ (T.take s ++ T.drop e).drop s = T
  rw [h1, h2, h3]
  exact List.take_append_drop _ _

/-- C5 witness: the round trip at `"abc"` with selection `[1, 2)`. -/
theorem delete_replace_roundtrip_witness :
    1 ≤ 2 ∧ 2 ≤ "abc".data.length ∧
    (((Editor.mk "abc".data 1 2).deleteSelection).replaceSelection
        (listSlice "abc".data 1 2)).text = "abc".data :=
  ⟨by decide, by decide,
    delete_replace_roundtrip "abc".data 1 2 (by decide) (by decide)⟩

/-- `Application.undo()` never adds commands to the history, so it keeps
the history all state-changing. -/
theorem undo_preserves_stateChanging (app : App)
    (h : app.history.history.all stateChanging = true) :
    (app.undo).history.history.all stateChanging = true := by
  obtain ⟨cb, eds, ed, hist⟩ := app
  obtain ⟨hl⟩ := hist
  cases hl with
  | nil => exact h
  | cons c t =>
    simp only [List.all_cons, Bool.and_eq_true] at h
    exact h.2

/-- One public operation keeps the history all state-changing: only Cut
and Paste entries are ever pushed. -/
theorem step_preserves_stateChanging (app : App) (op : AppOp)
    (h : app.history.history.all stateChanging = true) :
    (applyOp app op).history.history.all stateChanging = true := by
  cases op with
  | undoOp => exact undo_preserves_stateChanging app h
  | execOp k =>
    cases k with
    | copy => exact h
    | undo => exact undo_preserves_stateChanging app h
    | cut =>
      show (Command.mk CmdKind.cut app.activeEditor.text
          :: app.history.history).all stateChanging = true
      simp only [List.all_cons, Bool.and_eq_true]
      exact ⟨rfl, h⟩
    | paste =>
      show (Command.mk CmdKind.paste app.activeEditor.text
          :: app.history.history).all stateChanging = true
      simp only [List.all_cons, Bool.and_eq_true]
      exact ⟨rfl, h⟩

/-- C6: after any sequence of `executeCommand` and `Application.undo()`
calls starting from a fresh application, every command in the history is
a state-changing one (Cut or Paste); Copy and Undo commands are never
retained. -/
theorem history_only_state_changing (ed : Editor) (ops : List AppOp) :
    (runOps (newApplication ed) ops).history.history.all stateChanging = true := by
  have gen : ∀ (l : List AppOp) (app : App),
      app.history.history.all stateChanging = true →
      (runOps app l).history.history.all stateChanging = true := by
    intro l
    induction l with
    | nil => intro app h; exact h
    | cons op t ih =>
      intro app h
      exact ih (applyOp app op) (step_preserves_stateChanging app op h)
  exact gen ops (newApplication ed) rfl
